import Mathlib

/-!
Shallow embedding of the beat-sync render engine (`engine.py`) of the
dezko backend.  Times and durations are modelled as rationals (Python
floats in the source), frame counters as integers.  The ambient
randomness used by the allocator (`random.shuffle`, `random.uniform`,
`random.choice`) is modelled by an explicit stream of draws (`Rng`)
threaded through the computation; theorems about "every outcome of the
random draws" quantify over the stream.
-/

namespace BeatSync

/-- The fixed frame rate used throughout `engine.py` (`fps = 30`). -/
def fps : ℚ := 30

/-- Python's `int()` applied to a float: truncation toward zero. -/
def pyInt (q : ℚ) : ℤ := if 0 ≤ q then ⌊q⌋ else ⌈q⌉

/-- `engine.py` lines 273-274 / 300-301: align a time to a frame
boundary, `t = int(t * fps) / fps`. -/
def alignFrame (t : ℚ) : ℚ := (pyInt (t * fps) : ℚ) / fps

/-- Explicit random source: a stream of "real" draws (used by
`random.uniform`, each meant as a sample of `[0,1]`) and a stream of
natural-number draws (used by `random.shuffle` / `random.choice`),
together with read positions. -/
structure Rng where
  reals : ℕ → ℚ
  nats : ℕ → ℕ
  rpos : ℕ
  npos : ℕ

def Rng.nextReal (g : Rng) : ℚ × Rng :=
  (g.reals g.rpos, { g with rpos := g.rpos + 1 })

def Rng.nextNat (g : Rng) : ℕ × Rng :=
  (g.nats g.npos, { g with npos := g.npos + 1 })

/-- Clamp a draw into `[0,1]`; the stream plays the role of the uniform
samples, and clamping makes every stream a legal sequence of samples. -/
def clamp01 (q : ℚ) : ℚ := max 0 (min 1 q)

/-- Model of `random.uniform(a, b)`: an arbitrary value of `[a, b]`
(for `a ≤ b`), driven by the next stream draw. -/
def uniform (a b : ℚ) (g : Rng) : ℚ × Rng :=
  let p := g.nextReal
  (a + (b - a) * clamp01 p.1, p.2)

/-- Remove the element at position `i` of a list, returning it and the
remainder (`none` when `i` is out of range). -/
def pickGo : List α → ℕ → Option (α × List α)
  | [], _ => none
  | x :: xs, 0 => some (x, xs)
  | x :: xs, i + 1 =>
    match pickGo xs i with
    | none => none
    | some (y, ys) => some (y, x :: ys)

/-- Fuelled selection shuffle: repeatedly extract the element at a
stream-chosen position.  Models `random.shuffle` (every permutation of
the input is a possible outcome, and every outcome is a permutation). -/
def shuffleGo : ℕ → List α → Rng → List α × Rng
  | 0, _, g => ([], g)
  | _ + 1, [], g => ([], g)
  | n + 1, l@(_ :: _), g =>
    let p := g.nextNat
    match pickGo l (p.1 % l.length) with
    | none => ([], p.2)
    | some (x, rest) =>
      let q := shuffleGo n rest p.2
      (x :: q.1, q.2)

def shuffle (l : List α) (g : Rng) : List α × Rng := shuffleGo l.length l g

/-- Model of `random.choice(l)` (engine.py line 295): pick an element of
`l` at a stream-chosen position (`dflt` is returned for an empty list;
the engine only calls this with a nonempty list). -/
def choice (l : List α) (dflt : α) (g : Rng) : α × Rng :=
  let p := g.nextNat
  (l.getD (p.1 % l.length) dflt, p.2)

/-- One beat mark of `beats.xml` (`parse_beats`, lines 56-60). -/
structure BeatMark where
  index : ℤ
  time : ℚ
deriving DecidableEq, Repr

/-- One cut produced by `parse_beats` (lines 68-81). -/
structure Cut where
  index : ℤ
  start : ℚ
  duration : ℚ
deriving DecidableEq, Repr

/-- Ordering of beat marks by time, used by the defensive sort
(`beats.sort(key=lambda x: x['time'])`, line 63). -/
def beatLE (a b : BeatMark) : Prop := a.time ≤ b.time

instance : DecidableRel beatLE := fun a b =>
  inferInstanceAs (Decidable (a.time ≤ b.time))

instance : IsTotal BeatMark beatLE := ⟨fun a b => le_total a.time b.time⟩

instance : IsTrans BeatMark beatLE := ⟨fun _ _ _ => le_trans⟩

def sortBeats (l : List BeatMark) : List BeatMark := l.insertionSort beatLE

/-- The cut list built from the (sorted) beat list: each cut ends at the
next mark's time, the last cut ends at the total duration
(lines 68-81). -/
def cutsOf : List BeatMark → ℚ → List Cut
  | [], _ => []
  | [b], total => [⟨b.index, b.time, total - b.time⟩]
  | b :: b' :: rest, total =>
    ⟨b.index, b.time, b'.time - b.time⟩ :: cutsOf (b' :: rest) total

/-- `BeatSyncEngine.parse_beats` (lines 50-83): sort the marks by time,
then derive per-cut start and duration. -/
def parse_beats (beats : List BeatMark) (total_duration : ℚ) : List Cut :=
  cutsOf (sortBeats beats) total_duration

/-- Closed-interval overlap test against the recorded usage intervals of
one asset (lines 278-282): a candidate `[t, tEnd]` clashes with a
recorded `(u_start, u_end)` iff `t <= u_end and tEnd >= u_start`. -/
def overlapsAny (usage : List (ℚ × ℚ)) (t tEnd : ℚ) : Bool :=
  usage.any fun u => decide (t ≤ u.2) && decide (tEnd ≥ u.1)

/-- The inner `for _ in range(10)` loop (lines 270-287): up to `n` draws
of a uniform `t` of `[0, maxStart]`, frame-aligned; the first draw that
does not overlap any recorded usage interval is returned. -/
def tryDraws : ℕ → ℚ → ℚ → List (ℚ × ℚ) → Rng → Option ℚ × Rng
  | 0, _, _, _, g => (none, g)
  | n + 1, maxStart, durSec, usage, g =>
    let p := uniform 0 maxStart g
    let t := alignFrame p.1
    if overlapsAny usage t (t + durSec) then tryDraws n maxStart durSec usage p.2
    else (some t, p.2)

/-- The outer candidate loop (lines 265-290): walk the shuffled asset
indices; an asset whose `maxStart = duration - durSec - 0.1` is `<= 0`
is skipped, otherwise up to 10 draws are attempted on it. -/
def findSlot (assets : List ℚ) (usage : List (List (ℚ × ℚ))) (durSec : ℚ) :
    List ℕ → Rng → Option (ℕ × ℚ) × Rng
  | [], g => (none, g)
  | idx :: rest, g =>
    let maxStart := assets.getD idx 0 - durSec - 1 / 10
    if maxStart ≤ 0 then findSlot assets usage durSec rest g
    else
      let p := tryDraws 10 maxStart durSec (usage.getD idx []) g
      match p.1 with
      | some t => (some (idx, t), p.2)
      | none => findSlot assets usage durSec rest p.2

/-- Slot allocation for one cut (lines 257-301): shuffle the full list
of asset indices, search for a clean (non-overlapping) slot, and on
total failure fall back to a random asset with a clamped, frame-aligned,
unchecked start (lines 292-301).  Returns the committed asset index,
start time and whether the fallback (degraded) path fired. -/
def allocateCut (assets : List ℚ) (usage : List (List (ℚ × ℚ))) (durSec : ℚ)
    (g : Rng) : (ℕ × ℚ × Bool) × Rng :=
  let sh := shuffle (List.range assets.length) g
  let fs := findSlot assets usage durSec sh.1 sh.2
  match fs.1 with
  | some it => ((it.1, it.2, false), fs.2)
  | none =>
    let ch := choice sh.1 0 fs.2
    let maxStart := assets.getD ch.1 0 - durSec - 1 / 10
    let p := uniform 0 (max 0 maxStart) ch.2
    ((ch.1, alignFrame p.1, true), p.2)

/-- `usage_map[selected].append((start, start + durSec))` (line 304). -/
def recordUsage (usage : List (List (ℚ × ℚ))) (idx : ℕ) (iv : ℚ × ℚ) :
    List (List (ℚ × ℚ)) :=
  usage.set idx (usage.getD idx [] ++ [iv])

/-- A committed assignment for one emitted cut: loop position, committed
asset index, frame-aligned start time, frame count, and whether the
fallback path produced it (the engine prints a warning there). -/
structure Assignment where
  cutIndex : ℕ
  asset : ℕ
  start : ℚ
  frames : ℤ
  degraded : Bool
deriving DecidableEq, Repr

/-- State carried across the cut loop of `render` (lines 238-241):
the running frame cursor, the per-asset usage intervals, the committed
assignments (the engine materialises each as a clip file), and the
random source. -/
structure LoopState where
  frame : ℤ
  usage : List (List (ℚ × ℚ))
  recs : List Assignment
  g : Rng

/-- One iteration of the cut loop (lines 245-311): derive the cut's
frame count cumulatively from the running cursor, advance the cursor
(even when the cut is dropped), drop non-positive cuts, otherwise
allocate a slot and record the usage interval. -/
def renderStep (assets : List ℚ) (s : LoopState) (i : ℕ) (cut : Cut) :
    LoopState :=
  let targetEndFrame := pyInt ((cut.start + cut.duration) * fps)
  let durFrames := targetEndFrame - s.frame
  if durFrames ≤ 0 then { s with frame := targetEndFrame }
  else
    let durSec := (durFrames : ℚ) / fps
    let a := allocateCut assets s.usage durSec s.g
    { frame := targetEndFrame
      usage := recordUsage s.usage a.1.1 (a.1.2.1, a.1.2.1 + durSec)
      recs := s.recs ++ [⟨i, a.1.1, a.1.2.1, durFrames, a.1.2.2⟩]
      g := a.2 }

/-- The cut loop of `render` (`for i, cut in enumerate(cuts)`,
lines 245-311), from the initial state: cursor 0, empty usage lists. -/
def renderLoop (assets : List ℚ) (cuts : List Cut) (g : Rng) : LoopState :=
  cuts.enum.foldl (fun s p => renderStep assets s p.1 p.2)
    ⟨0, List.replicate assets.length [], [], g⟩

/-- Sum of the emitted cuts' frame counts. -/
def sumFrames (recs : List Assignment) : ℤ := (recs.map Assignment.frames).sum

/-- The suffix of the character list starting at its last `.` (`none`
when there is no dot); models `os.path.splitext(f)[1]` for the file
names the engine sees. -/
def lastDotSuffix : List Char → Option (List Char)
  | [] => none
  | c :: cs =>
    match lastDotSuffix cs with
    | some e => some e
    | none => if c = '.' then some (c :: cs) else none

/-- The extension of a file name, as used on line 215. -/
def extOf (f : String) : String := String.mk ((lastDotSuffix f.data).getD [])

/-- `.lower()` on the extension string. -/
def lowerStr (s : String) : String := String.mk (s.data.map Char.toLower)

/-- The extension allow-list of line 214. -/
def valid_extensions : List String := [".mp4", ".mov", ".avi", ".mkv"]

/-- The extension filter over the enumerated asset files (line 215). -/
def filterAssets (files : List String) : List String :=
  files.filter fun f => valid_extensions.contains (lowerStr (extOf f))

/-- `get_video_info` (lines 85-112), duration field: a failed probe is
caught and reported as duration `0.0` (line 112) instead of raising. -/
def get_video_info_duration (probeResult : Option ℚ) : ℚ :=
  probeResult.getD 0

/-- The asset cataloguing of `render` (lines 213-235): filter the file
list by extension, then record each surviving file with the probed
duration of its normalized copy.  `probe` stands for the composition
normalize-then-`get_video_info` (an external collaborator); `none`
models an unprobeable file. -/
def buildAssets (files : List String) (probe : String → Option ℚ) :
    List (String × ℚ) :=
  (filterAssets files).map fun f => (f, get_video_info_duration (probe f))

/-- Scaled-to-cover, center-cropped geometry computed by
`normalize_asset` (lines 130-147) for a source of `in_w × in_h`:
returns `(new_w, new_h, crop_x, crop_y)`.  `%` and `//` of the Python
source are `Int.emod` and `Int.fdiv` (floor division). -/
def normalize_asset_geometry (in_w in_h : ℕ) : ℤ × ℤ × ℤ × ℤ :=
  let target_w : ℤ := 1080
  let target_h : ℤ := 1920
  let scale_x : ℚ := 1080 / (in_w : ℚ)
  let scale_y : ℚ := 1920 / (in_h : ℚ)
  let scale_factor := max scale_x scale_y
  let nw0 := pyInt ((in_w : ℚ) * scale_factor)
  let nh0 := pyInt ((in_h : ℚ) * scale_factor)
  let new_w := if nw0 % 2 ≠ 0 then nw0 + 1 else nw0
  let new_h := if nh0 % 2 ≠ 0 then nh0 + 1 else nh0
  (new_w, new_h, Int.fdiv (new_w - target_w) 2, Int.fdiv (new_h - target_h) 2)

/-- The final concat/mux command assembled on lines 323-335; its last
element is the output target handed to the external tool. -/
def concat_cmd (concat_list_path audio_file output_file : String) :
    List String :=
  ["ffmpeg", "-y", "-f", "concat", "-safe", "0", "-i", concat_list_path,
   "-i", audio_file, "-c:v", "copy", "-c:a", "aac", "-map", "0:v",
   "-map", "1:a", "-shortest", output_file]

/-- One external-tool invocation of the render pipeline. -/
inductive ToolCall where
  | normalize (src dst : String)
  | probe (path : String)
  | clip (src : String) (start : ℚ) (frames : ℤ) (dst : String)
  | concat (listPath audioFile outputFile : String)
deriving DecidableEq, Repr

/-- Orchestration model of `BeatSyncEngine.render` (lines 200-342): the
beat timeline is parsed, the asset files are filtered, and an error is
returned (the `ValueError` of line 218) when no asset survives — before
any normalize/probe/extract/concat invocation, all of which only exist
in the success branch, listed in issue order.  The success value pairs
the external-tool trace with the committed assignments. -/
def render (beats : List BeatMark) (total_duration : ℚ)
    (files : List String) (probe : String → Option ℚ) (g : Rng)
    (temp_dir audio_file output_file : String) :
    Except String (List ToolCall × List Assignment) :=
  let cuts := parse_beats beats total_duration
  let asset_files := filterAssets files
  if asset_files.isEmpty then Except.error "No video assets found"
  else
    let normPath := fun (i : ℕ) => temp_dir ++ "/norm_" ++ toString i ++ ".mp4"
    let normCalls := (asset_files.enum.map fun p =>
      [ToolCall.normalize p.2 (normPath p.1), ToolCall.probe (normPath p.1)]).flatten
    let durations := asset_files.map fun f => get_video_info_duration (probe f)
    let st := renderLoop durations cuts g
    let clipCalls := st.recs.map fun r =>
      ToolCall.clip (normPath r.asset) r.start r.frames
        (temp_dir ++ "/clip_" ++ toString r.cutIndex ++ ".mp4")
    Except.ok
      (normCalls ++ clipCalls ++
        [ToolCall.concat (temp_dir ++ "/clips.txt") audio_file output_file],
       st.recs)

/-- The usage interval an assignment occupies on its asset. -/
def ivOf (r : Assignment) : ℚ × ℚ := (r.start, r.start + (r.frames : ℚ) / fps)

/-- Ordered non-clash relation between an earlier and a later
assignment: a later non-degraded assignment on the same asset must not
overlap the earlier one (closed-interval test). -/
def noClash (a b : Assignment) : Prop :=
  a.asset = b.asset → b.degraded = false →
  ¬(a.start ≤ (ivOf b).2 ∧ (ivOf a).2 ≥ b.start)

/-- Fixed random stream: all uniform draws at 1/2, all index draws 0. -/
def rngHalf : Rng := ⟨fun _ => 1 / 2, fun _ => 0, 0, 0⟩

/-- Random stream whose first uniform draw is 0 and the rest 1/2, all
index draws 0. -/
def rngZeroThenHalf : Rng := ⟨fun i => if i = 0 then 0 else 1 / 2, fun _ => 0, 0, 0⟩

section Lemmas

lemma pyInt_of_nonneg {q : ℚ} (h : 0 ≤ q) : pyInt q = ⌊q⌋ := if_pos h

lemma pyInt_nonneg {q : ℚ} (h : 0 ≤ q) : 0 ≤ pyInt q := by
  rw [pyInt_of_nonneg h]; exact Int.floor_nonneg.mpr h

lemma clamp01_nonneg (q : ℚ) : 0 ≤ clamp01 q := le_max_left _ _

lemma clamp01_le_one (q : ℚ) : clamp01 q ≤ 1 := by
  unfold clamp01
  exact max_le (by norm_num) (min_le_left _ _)

lemma uniform_mem {b : ℚ} (hb : 0 ≤ b) (g : Rng) :
    0 ≤ (uniform 0 b g).1 ∧ (uniform 0 b g).1 ≤ b := by
  unfold uniform
  constructor
  · simpa using mul_nonneg hb (clamp01_nonneg _)
  · simpa using
      (mul_le_of_le_one_right hb (clamp01_le_one _))

lemma alignFrame_nonneg {t : ℚ} (h : 0 ≤ t) : 0 ≤ alignFrame t := by
  unfold alignFrame
  have h30 : (0 : ℚ) ≤ fps := by norm_num [fps]
  have h1 : (0 : ℤ) ≤ pyInt (t * fps) := pyInt_nonneg (mul_nonneg h h30)
  exact div_nonneg (by exact_mod_cast h1) h30

lemma alignFrame_le {t : ℚ} (h : 0 ≤ t) : alignFrame t ≤ t := by
  unfold alignFrame
  have h30 : (0 : ℚ) < fps := by norm_num [fps]
  rw [pyInt_of_nonneg (mul_nonneg h h30.le)]
  rw [div_le_iff₀ h30]
  exact Int.floor_le _

lemma alignFrame_frame (t : ℚ) : ∃ k : ℤ, alignFrame t = (k : ℚ) / fps :=
  ⟨pyInt (t * fps), rfl⟩

lemma uniform_zero_zero (g : Rng) : (uniform 0 0 g).1 = 0 := by
  simp [uniform]

lemma alignFrame_zero : alignFrame 0 = 0 := by
  norm_num [alignFrame, pyInt]

/-- `overlapsAny` spelled out. -/
lemma overlapsAny_eq_false {u : List (ℚ × ℚ)} {t e : ℚ} :
    overlapsAny u t e = false ↔ ∀ iv ∈ u, ¬(t ≤ iv.2 ∧ e ≥ iv.1) := by
  simp [overlapsAny, List.any_eq_false]

lemma getD_set_self {l : List (List (ℚ × ℚ))} {i : ℕ} {v : List (ℚ × ℚ)}
    (h : i < l.length) : (l.set i v).getD i [] = v := by
  induction l generalizing i with
  | nil => simp at h
  | cons x xs ih =>
    cases i with
    | zero => simp
    | succ n =>
      simp only [List.set_cons_succ, List.getD_cons_succ]
      exact ih (by simpa using h)

lemma getD_set_ne {l : List (List (ℚ × ℚ))} {i j : ℕ} {v : List (ℚ × ℚ)}
    (h : j ≠ i) : (l.set i v).getD j [] = l.getD j [] := by
  induction l generalizing i j with
  | nil => simp
  | cons x xs ih =>
    cases i with
    | zero => cases j with
      | zero => exact absurd rfl h
      | succ m => simp
    | succ n =>
      cases j with
      | zero => simp
      | succ m =>
        simp only [List.set_cons_succ, List.getD_cons_succ]
        exact ih (fun hc => h (by omega))

end Lemmas

section GeometryClaims

/-- C9: for every source with probed dimensions `in_w > 0` and
`in_h > 0`, the normalization geometry yields even scaled dimensions
`new_w ≥ 1080` and `new_h ≥ 1920` (scale factor the max of the per-axis
ratios, dimensions rounded up to even) and symmetric nonnegative
center-crop offsets `crop_x = (new_w - 1080) // 2`,
`crop_y = (new_h - 1920) // 2` placing the 1080×1920 box inside the
scaled frame. -/
theorem c9_normalize_geometry (w h : ℕ) (hw : 0 < w) (hh : 0 < h) :
    (normalize_asset_geometry w h).1 % 2 = 0 ∧
    (normalize_asset_geometry w h).2.1 % 2 = 0 ∧
    1080 ≤ (normalize_asset_geometry w h).1 ∧
    1920 ≤ (normalize_asset_geometry w h).2.1 ∧
    0 ≤ (normalize_asset_geometry w h).2.2.1 ∧
    0 ≤ (normalize_asset_geometry w h).2.2.2 ∧
    (normalize_asset_geometry w h).2.2.1 + 1080 ≤ (normalize_asset_geometry w h).1 ∧
    (normalize_asset_geometry w h).2.2.2 + 1920 ≤ (normalize_asset_geometry w h).2.1 := by
  have hwq : (0 : ℚ) < (w : ℚ) := by exact_mod_cast hw
  have hhq : (0 : ℚ) < (h : ℚ) := by exact_mod_cast hh
  have k1 : (1080 : ℚ) ≤ (w : ℚ) * max (1080 / (w : ℚ)) (1920 / (h : ℚ)) := by
    have h1 : (1080 : ℚ) / w ≤ max (1080 / (w : ℚ)) (1920 / (h : ℚ)) :=
      le_max_left _ _
    have h2 : (w : ℚ) * ((1080 : ℚ) / w)
        ≤ (w : ℚ) * max (1080 / (w : ℚ)) (1920 / (h : ℚ)) :=
      mul_le_mul_of_nonneg_left h1 hwq.le
    calc (1080 : ℚ) = (w : ℚ) * ((1080 : ℚ) / w) := by field_simp
    _ ≤ _ := h2
  have k2 : (1920 : ℚ) ≤ (h : ℚ) * max (1080 / (w : ℚ)) (1920 / (h : ℚ)) := by
    have h1 : (1920 : ℚ) / h ≤ max (1080 / (w : ℚ)) (1920 / (h : ℚ)) :=
      le_max_right _ _
    have h2 : (h : ℚ) * ((1920 : ℚ) / h)
        ≤ (h : ℚ) * max (1080 / (w : ℚ)) (1920 / (h : ℚ)) :=
      mul_le_mul_of_nonneg_left h1 hhq.le
    calc (1920 : ℚ) = (h : ℚ) * ((1920 : ℚ) / h) := by field_simp
    _ ≤ _ := h2
  have b1 : (1080 : ℤ)
      ≤ pyInt ((w : ℚ) * max (1080 / (w : ℚ)) (1920 / (h : ℚ))) := by
    rw [pyInt_of_nonneg (le_trans (by norm_num) k1)]
    exact Int.le_floor.mpr (by exact_mod_cast k1)
  have b2 : (1920 : ℤ)
      ≤ pyInt ((h : ℚ) * max (1080 / (w : ℚ)) (1920 / (h : ℚ))) := by
    rw [pyInt_of_nonneg (le_trans (by norm_num) k2)]
    exact Int.le_floor.mpr (by exact_mod_cast k2)
  simp only [normalize_asset_geometry]
  set nw0 : ℤ := pyInt ((w : ℚ) * max (1080 / (w : ℚ)) (1920 / (h : ℚ))) with hnw0
  set nh0 : ℤ := pyInt ((h : ℚ) * max (1080 / (w : ℚ)) (1920 / (h : ℚ))) with hnh0
  simp only [Int.fdiv_eq_ediv _ (by norm_num : (0 : ℤ) ≤ 2)]
  split_ifs <;> omega

end GeometryClaims

section PipelineClaims

/-- C6 counterexample: at a concrete render job the final external-tool
invocation is the concat command whose output target is the
caller-specified path itself (`out.mp4`), not a path under the temporary
directory, and no rename/replace step follows it — refuting the claim
that the artifact is written to a temporary output path and the target
is atomically replaced on success. -/
theorem c6_direct_output_counterexample :
    (render [⟨0, 0⟩] 1 ["a.mp4"] (fun _ => some 10) rngHalf
        "temp_render" "audio.mp3" "out.mp4").map (fun p => p.1.getLast?)
      = Except.ok (some (ToolCall.concat "temp_render/clips.txt"
          "audio.mp3" "out.mp4")) ∧
    List.isPrefixOf "temp_render".data "out.mp4".data = false := by
  constructor
  · simp only [render]
    rw [if_neg (by decide)]
    simp only [Except.map, List.getLast?_concat]
    rfl
  · decide

/-- C6 amended: the concat/mux command writes directly to the
caller-specified output path (it is the command's final argument); the
engine has no temporary output path and no atomic-replace step, so a
failed concat can leave a partial file at the output path. -/
theorem c6_concat_writes_caller_path
    (concat_list_path audio_file output_file : String) :
    (concat_cmd concat_list_path audio_file output_file).getLast?
      = some output_file := rfl

/-- C7 counterexample: a catalogued file whose probe fails (modelled by
`none`, which `get_video_info` turns into duration `0.0`) is *not*
discarded: it appears among the canonical assets handed to the
allocator, with duration 0. -/
theorem c7_zero_duration_retained_counterexample :
    buildAssets ["a.mp4"] (fun _ => none) = [("a.mp4", 0)] ∧
    ("a.mp4", (0 : ℚ)) ∈ buildAssets ["a.mp4"] (fun _ => none) := by
  refine ⟨rfl, ?_⟩
  exact List.mem_singleton_self ("a.mp4", (0 : ℚ))

/-- C7 amended: `get_video_info` never raises by itself (a failed probe
yields the zero record), but the catalogue keeps every file that
survives the extension filter — an unprobeable or zero-duration file is
recorded with duration 0.0 and stays among the canonical assets. -/
theorem c7_catalog_keeps_filtered_files (files : List String)
    (probe : String → Option ℚ) :
    (buildAssets files probe).map Prod.fst = filterAssets files ∧
    get_video_info_duration none = 0 := by
  constructor
  · simp [buildAssets, List.map_map, Function.comp_def]
  · rfl

/-- C8: when the asset set is empty after extension filtering, `render`
fails with the no-assets error (the `ValueError` of line 218, the
failure the spec's taxonomy calls `ConfigError`); the failure is
returned before any external-tool invocation — the tool trace exists
only in the success branch, which is not reached. -/
theorem c8_empty_assets_config_error (beats : List BeatMark)
    (total : ℚ) (files : List String) (probe : String → Option ℚ)
    (g : Rng) (temp_dir audio_file output_file : String)
    (hempty : filterAssets files = []) :
    render beats total files probe g temp_dir audio_file output_file
      = Except.error "No video assets found" := by
  unfold render
  rw [hempty]
  rfl

/-- Witness for C8 at a concrete input: a directory whose only file has
extension `.txt` is emptied by the filter and `render` fails. -/
theorem c8_empty_assets_config_error_witness :
    render [⟨0, 0⟩] 1 ["a.txt"] (fun _ => some 10) rngHalf "t" "a" "o"
      = Except.error "No video assets found" :=
  c8_empty_assets_config_error [⟨0, 0⟩] 1 ["a.txt"] (fun _ => some 10)
    rngHalf "t" "a" "o" (by rfl)

/-- Witness for C9 at a concrete input (a 1000×500 source). -/
theorem c9_normalize_geometry_witness :
    (normalize_asset_geometry 1000 500).1 % 2 = 0 ∧
    (normalize_asset_geometry 1000 500).2.1 % 2 = 0 ∧
    1080 ≤ (normalize_asset_geometry 1000 500).1 ∧
    1920 ≤ (normalize_asset_geometry 1000 500).2.1 ∧
    0 ≤ (normalize_asset_geometry 1000 500).2.2.1 ∧
    0 ≤ (normalize_asset_geometry 1000 500).2.2.2 ∧
    (normalize_asset_geometry 1000 500).2.2.1 + 1080
      ≤ (normalize_asset_geometry 1000 500).1 ∧
    (normalize_asset_geometry 1000 500).2.2.2 + 1920
      ≤ (normalize_asset_geometry 1000 500).2.1 :=
  c9_normalize_geometry 1000 500 (by norm_num) (by norm_num)

end PipelineClaims

section AllocatorLemmas

lemma pickGo_perm {α : Type} :
    ∀ {l : List α} {i : ℕ} {x : α} {rest : List α},
      pickGo l i = some (x, rest) → (x :: rest).Perm l := by
  intro l
  induction l with
  | nil => intro i x rest h; cases h
  | cons a as ih =>
    intro i x rest h
    cases i with
    | zero =>
      simp only [pickGo] at h
      cases h
      exact List.Perm.refl _
    | succ n =>
      simp only [pickGo] at h
      cases hrec : pickGo as n with
      | none => rw [hrec] at h; cases h
      | some p =>
        obtain ⟨y, ys⟩ := p
        rw [hrec] at h
        simp only [Option.some.injEq, Prod.mk.injEq] at h
        obtain ⟨h1, h2⟩ := h
        subst h1; subst h2
        exact (List.Perm.swap a y ys).trans ((ih hrec).cons a)

lemma pickGo_isSome {α : Type} :
    ∀ {l : List α} {i : ℕ}, i < l.length →
      ∃ x rest, pickGo l i = some (x, rest) := by
  intro l
  induction l with
  | nil => intro i h; simp at h
  | cons a as ih =>
    intro i h
    cases i with
    | zero => exact ⟨a, as, rfl⟩
    | succ n =>
      obtain ⟨x, rest, hx⟩ := ih (by simpa using h)
      exact ⟨x, a :: rest, by simp only [pickGo, hx]⟩

lemma shuffleGo_perm {α : Type} :
    ∀ (n : ℕ) (l : List α) (g : Rng), l.length ≤ n →
      ((shuffleGo n l g).1).Perm l := by
  intro n
  induction n with
  | zero =>
    intro l g h
    rw [List.length_eq_zero.mp (Nat.le_zero.mp h)]
    exact List.Perm.refl _
  | succ n ih =>
    intro l g h
    cases l with
    | nil => exact List.Perm.refl _
    | cons a as =>
      have hlt : (g.nextNat.1) % (a :: as).length < (a :: as).length :=
        Nat.mod_lt _ (by simp)
      obtain ⟨x, rest, hx⟩ := pickGo_isSome hlt
      have hperm : (x :: rest).Perm (a :: as) := pickGo_perm hx
      have hrest : rest.length ≤ n := by
        have hl := hperm.length_eq
        simp only [List.length_cons] at hl h
        omega
      simp only [shuffleGo, hx]
      exact ((ih rest _ hrest).cons x).trans hperm

lemma shuffle_perm {α : Type} (l : List α) (g : Rng) :
    ((shuffle l g).1).Perm l :=
  shuffleGo_perm l.length l g le_rfl

lemma shuffle_range_length (n : ℕ) (g : Rng) :
    (shuffle (List.range n) g).1.length = n := by
  rw [(shuffle_perm (List.range n) g).length_eq, List.length_range]

lemma choice_mem {α : Type} {l : List α} (h : l ≠ []) (dflt : α) (g : Rng) :
    (choice l dflt g).1 ∈ l := by
  have hlt : (g.nextNat.1) % l.length < l.length :=
    Nat.mod_lt _ (List.length_pos.mpr h)
  change l.getD (g.nextNat.1 % l.length) dflt ∈ l
  rw [List.getD_eq_getElem l dflt hlt]
  exact List.getElem_mem hlt

lemma perm_pair {l : List ℕ} {a b : ℕ} (h : l.Perm [a, b]) :
    l = [a, b] ∨ l = [b, a] := by
  have hlen : l.length = 2 := by simpa using h.length_eq
  match l, hlen with
  | [x, y], _ =>
    have hx : x ∈ [a, b] := h.mem_iff.mp (List.mem_cons_self x [y])
    simp at hx
    rcases hx with hx | hx
    · have h2 : [y].Perm [b] := by
        rw [hx] at h
        exact h.cons_inv
      left
      rw [hx, List.singleton_perm_singleton.mp h2]
    · have h2 : [y].Perm [a] := by
        rw [hx] at h
        exact (h.trans (List.Perm.swap b a [])).cons_inv
      right
      rw [hx, List.singleton_perm_singleton.mp h2]

/-- Properties of a successful draw search on one asset. -/
lemma tryDraws_some_spec :
    ∀ (n : ℕ) {m d : ℚ} {u : List (ℚ × ℚ)} {g : Rng} {t : ℚ},
      (tryDraws n m d u g).1 = some t →
      overlapsAny u t (t + d) = false ∧
      (0 ≤ m → 0 ≤ t ∧ t ≤ m) ∧ ∃ k : ℤ, t = (k : ℚ) / fps := by
  intro n
  induction n with
  | zero => intro m d u g t h; cases h
  | succ n ih =>
    intro m d u g t h
    simp only [tryDraws] at h
    by_cases hov : overlapsAny u (alignFrame (uniform 0 m g).1)
        (alignFrame (uniform 0 m g).1 + d)
    · rw [if_pos hov] at h
      exact ih h
    · rw [if_neg hov] at h
      cases h
      refine ⟨Bool.eq_false_iff.mpr hov, fun hm => ?_, alignFrame_frame _⟩
      obtain ⟨h1, h2⟩ := uniform_mem hm g
      exact ⟨alignFrame_nonneg h1, le_trans (alignFrame_le h1) h2⟩

/-- Properties of a successful clean-slot search across the candidate
list: the selected asset is a candidate with positive `maxStart`, and
the committed start is overlap-free, frame-aligned and within range. -/
lemma findSlot_some_spec :
    ∀ (cands : List ℕ) {assets : List ℚ} {usage : List (List (ℚ × ℚ))}
      {d : ℚ} {g : Rng} {idx : ℕ} {t : ℚ},
      (findSlot assets usage d cands g).1 = some (idx, t) →
      idx ∈ cands ∧ 0 < assets.getD idx 0 - d - 1 / 10 ∧
      overlapsAny (usage.getD idx []) t (t + d) = false ∧
      0 ≤ t ∧ t ≤ assets.getD idx 0 - d - 1 / 10 ∧
      ∃ k : ℤ, t = (k : ℚ) / fps := by
  intro cands
  induction cands with
  | nil => intro assets usage d g idx t h; cases h
  | cons c cs ih =>
    intro assets usage d g idx t h
    simp only [findSlot] at h
    by_cases hms : assets.getD c 0 - d - 1 / 10 ≤ 0
    · rw [if_pos hms] at h
      obtain ⟨h1, h2⟩ := ih h
      exact ⟨List.mem_cons_of_mem _ h1, h2⟩
    · rw [if_neg hms] at h
      cases htry : (tryDraws 10 (assets.getD c 0 - d - 1 / 10) d
          (usage.getD c []) g).1 with
      | some t' =>
        rw [htry] at h
        simp only at h
        cases h
        obtain ⟨ho, hb, hf⟩ := tryDraws_some_spec 10 htry
        obtain ⟨hb1, hb2⟩ := hb (by linarith [not_le.mp hms])
        exact ⟨List.mem_cons_self _ _, not_le.mp hms, ho, hb1, hb2, hf⟩
      | none =>
        rw [htry] at h
        simp only at h
        obtain ⟨h1, h2⟩ := ih h
        exact ⟨List.mem_cons_of_mem _ h1, h2⟩

/-- `allocateCut` either commits the clean slot found by the search, or
falls back to a random choice with clamped aligned start. -/
lemma allocateCut_cases (assets : List ℚ) (usage : List (List (ℚ × ℚ)))
    (d : ℚ) (g : Rng) :
    (∃ idx t, (findSlot assets usage d (shuffle (List.range assets.length) g).1
        (shuffle (List.range assets.length) g).2).1 = some (idx, t) ∧
      (allocateCut assets usage d g).1 = (idx, t, false)) ∨
    ((findSlot assets usage d (shuffle (List.range assets.length) g).1
        (shuffle (List.range assets.length) g).2).1 = none ∧
      ∃ ch next, choice (shuffle (List.range assets.length) g).1 0
          (findSlot assets usage d (shuffle (List.range assets.length) g).1
            (shuffle (List.range assets.length) g).2).2 = (ch, next) ∧
        (allocateCut assets usage d g).1 =
          (ch, alignFrame (uniform 0
            (max 0 (assets.getD ch 0 - d - 1 / 10)) next).1, true)) := by
  simp only [allocateCut]
  cases hfs : (findSlot assets usage d (shuffle (List.range assets.length) g).1
      (shuffle (List.range assets.length) g).2).1 with
  | some it =>
    left
    exact ⟨it.1, it.2, rfl, rfl⟩
  | none =>
    right
    exact ⟨rfl, (choice (shuffle (List.range assets.length) g).1 0
        (findSlot assets usage d (shuffle (List.range assets.length) g).1
          (shuffle (List.range assets.length) g).2).2).1,
      (choice (shuffle (List.range assets.length) g).1 0
        (findSlot assets usage d (shuffle (List.range assets.length) g).1
          (shuffle (List.range assets.length) g).2).2).2, rfl, rfl⟩

/-- A non-degraded commit comes from the clean search: the asset index
is in range, the committed start does not overlap the asset's recorded
usage, and it is nonnegative. -/
lemma allocateCut_clean_spec {assets : List ℚ} {usage : List (List (ℚ × ℚ))}
    {d : ℚ} {g : Rng}
    (hdeg : (allocateCut assets usage d g).1.2.2 = false) :
    (allocateCut assets usage d g).1.1 < assets.length ∧
    overlapsAny (usage.getD (allocateCut assets usage d g).1.1 [])
      (allocateCut assets usage d g).1.2.1
      ((allocateCut assets usage d g).1.2.1 + d) = false ∧
    0 ≤ (allocateCut assets usage d g).1.2.1 := by
  rcases allocateCut_cases assets usage d g with
    ⟨idx, t, hfs, hres⟩ | ⟨hfs, ch, next, hch, hres⟩
  · obtain ⟨hmem, hpos, hov, hnn, hub, hfr⟩ := findSlot_some_spec _ hfs
    have hidx : idx < assets.length := by
      have := (shuffle_perm (List.range assets.length) g).mem_iff.mp hmem
      simpa using this
    simp only [hres]
    exact ⟨hidx, hov, hnn⟩
  · rw [hres] at hdeg
    cases hdeg

/-- A degraded commit comes from the fallback: the asset index is still
in range, the committed start is nonnegative, clamped to
`max 0 maxStart`, frame-aligned, and equal to 0 whenever the chosen
asset's `maxStart` is non-positive. -/
lemma allocateCut_fallback_spec {assets : List ℚ}
    {usage : List (List (ℚ × ℚ))} {d : ℚ} {g : Rng} (hne : assets ≠ [])
    (hdeg : (allocateCut assets usage d g).1.2.2 = true) :
    (allocateCut assets usage d g).1.1 < assets.length ∧
    0 ≤ (allocateCut assets usage d g).1.2.1 ∧
    (allocateCut assets usage d g).1.2.1
      ≤ max 0 (assets.getD (allocateCut assets usage d g).1.1 0 - d - 1 / 10) ∧
    (∃ k : ℤ, (allocateCut assets usage d g).1.2.1 = (k : ℚ) / fps) ∧
    (assets.getD (allocateCut assets usage d g).1.1 0 - d - 1 / 10 ≤ 0 →
      (allocateCut assets usage d g).1.2.1 = 0) := by
  rcases allocateCut_cases assets usage d g with
    ⟨idx, t, hfs, hres⟩ | ⟨hfs, ch, next, hch, hres⟩
  · rw [hres] at hdeg
    cases hdeg
  · have hshne : (shuffle (List.range assets.length) g).1 ≠ [] := by
      have h0 : 0 < assets.length := List.length_pos.mpr hne
      intro hcon
      have hl := shuffle_range_length assets.length g
      rw [hcon] at hl
      simp at hl
      omega
    have hchmem : ch ∈ (shuffle (List.range assets.length) g).1 := by
      have := choice_mem hshne 0 (findSlot assets usage d
        (shuffle (List.range assets.length) g).1
        (shuffle (List.range assets.length) g).2).2
      rwa [hch] at this
    have hidx : ch < assets.length := by
      have := (shuffle_perm (List.range assets.length) g).mem_iff.mp hchmem
      simpa using this
    have hmax : (0 : ℚ) ≤ max 0 (assets.getD ch 0 - d - 1 / 10) :=
      le_max_left _ _
    obtain ⟨hu1, hu2⟩ := uniform_mem hmax next
    simp only [hres]
    refine ⟨hidx, alignFrame_nonneg hu1,
      le_trans (alignFrame_le hu1) hu2, alignFrame_frame _, fun hms => ?_⟩
    have hmx : max 0 (assets.getD ch 0 - d - 1 / 10) = 0 := max_eq_left hms
    rw [hmx, uniform_zero_zero next, alignFrame_zero]

end AllocatorLemmas

section AllocatorClaims

/-- C4: when the random search finds no overlap-free slot (the commit is
flagged degraded), the allocator — a total function, so no fatal error —
picks a candidate asset (index in range, drawn by `random.choice`),
commits a frame-aligned start within `[0, max 0 maxStart]` with no
overlap check, and the committed interval still lands in that asset's
usage list. -/
theorem c4_fallback_commit (assets : List ℚ) (usage : List (List (ℚ × ℚ)))
    (d : ℚ) (g : Rng) (hne : assets ≠ [])
    (hlen : usage.length = assets.length)
    (hdeg : (allocateCut assets usage d g).1.2.2 = true) :
    (allocateCut assets usage d g).1.1 < assets.length ∧
    0 ≤ (allocateCut assets usage d g).1.2.1 ∧
    (allocateCut assets usage d g).1.2.1
      ≤ max 0 (assets.getD (allocateCut assets usage d g).1.1 0 - d - 1 / 10) ∧
    (∃ k : ℤ, (allocateCut assets usage d g).1.2.1 = (k : ℚ) / fps) ∧
    (recordUsage usage (allocateCut assets usage d g).1.1
        ((allocateCut assets usage d g).1.2.1,
          (allocateCut assets usage d g).1.2.1 + d)).getD
        (allocateCut assets usage d g).1.1 []
      = usage.getD (allocateCut assets usage d g).1.1 [] ++
        [((allocateCut assets usage d g).1.2.1,
          (allocateCut assets usage d g).1.2.1 + d)] := by
  obtain ⟨hidx, hnn, hub, hfr, _⟩ := allocateCut_fallback_spec hne hdeg
  refine ⟨hidx, hnn, hub, hfr, ?_⟩
  exact getD_set_self (by rw [hlen]; exact hidx)

/-- Witness for C4: one asset of duration 0.5s and a 1s cut: the search
cannot host the cut, the fallback fires. -/
theorem c4_fallback_commit_witness :
    (allocateCut [1 / 2] [[]] 1 rngHalf).1.1 < 1 ∧
    0 ≤ (allocateCut [1 / 2] [[]] 1 rngHalf).1.2.1 ∧
    (allocateCut [1 / 2] [[]] 1 rngHalf).1.2.1
      ≤ max 0 (([(1 : ℚ) / 2]).getD (allocateCut [1 / 2] [[]] 1 rngHalf).1.1 0
          - 1 - 1 / 10) ∧
    (∃ k : ℤ, (allocateCut [1 / 2] [[]] 1 rngHalf).1.2.1 = (k : ℚ) / fps) ∧
    (recordUsage [[]] (allocateCut [1 / 2] [[]] 1 rngHalf).1.1
        ((allocateCut [1 / 2] [[]] 1 rngHalf).1.2.1,
          (allocateCut [1 / 2] [[]] 1 rngHalf).1.2.1 + 1)).getD
        (allocateCut [1 / 2] [[]] 1 rngHalf).1.1 []
      = ([[]] : List (List (ℚ × ℚ))).getD (allocateCut [1 / 2] [[]] 1 rngHalf).1.1 [] ++
        [((allocateCut [1 / 2] [[]] 1 rngHalf).1.2.1,
          (allocateCut [1 / 2] [[]] 1 rngHalf).1.2.1 + 1)] := by
  have h := c4_fallback_commit [1 / 2] [[]] 1 rngHalf
    (List.cons_ne_nil _ _) rfl
    (by norm_num [allocateCut, shuffle, shuffleGo, pickGo, findSlot, tryDraws,
      uniform, clamp01, alignFrame, pyInt, overlapsAny, choice,
      Rng.nextNat, Rng.nextReal, rngHalf, fps])
  simpa using h

/-- C5: one asset of 1.5s, one of 5.0s, a cut requiring 2.0s, fresh
usage: for every outcome of the random draws (shuffle order included)
the allocator selects the 5.0s asset (index 1) through the
non-fallback path — the 1.5s asset never offers a positive `maxStart`
and is skipped. -/
theorem c5_insufficient_asset_skipped (g : Rng) :
    (allocateCut [3 / 2, 5] [[], []] 2 g).1.1 = 1 ∧
    (allocateCut [3 / 2, 5] [[], []] 2 g).1.2.2 = false := by
  have hperm : ((shuffle (List.range ([(3 : ℚ) / 2, 5]).length) g).1).Perm [0, 1] := by
    have h := shuffle_perm (List.range ([(3 : ℚ) / 2, 5]).length) g
    simpa [List.range_succ] using h
  rcases allocateCut_cases [3 / 2, 5] [[], []] 2 g with
    ⟨idx, t, hfs, hres⟩ | ⟨hfs, ch, next, hch, hres⟩
  · obtain ⟨hmem, hpos, _⟩ := findSlot_some_spec _ hfs
    have hidx : idx = 1 := by
      have h01 : idx = 0 ∨ idx = 1 := by
        have := hperm.mem_iff.mp hmem
        simpa using this
      rcases h01 with h0 | h1
      · rw [h0] at hpos
        norm_num [List.getD] at hpos
      · exact h1
    rw [hres, hidx]
    exact ⟨rfl, rfl⟩
  · exfalso
    rcases perm_pair hperm with hsh | hsh <;>
      rw [hsh] at hfs <;>
      simp only [findSlot, tryDraws, overlapsAny, List.getD_cons_zero,
        List.getD_cons_succ, List.any_nil] at hfs <;>
      norm_num at hfs <;>
      exact Option.noConfusion hfs

end AllocatorClaims

section FrameSum

lemma fps_nonneg : (0 : ℚ) ≤ fps := by norm_num [fps]

lemma pairwiseTail {α : Type} {R : α → α → Prop} :
    ∀ {l : List α}, List.Pairwise R l → List.Pairwise R l.tail
  | [], h => h
  | _ :: _, h => (List.pairwise_cons.mp h).2

/-- The cursor always advances to the cut's absolute end frame, dropped
or not (lines 248-250). -/
lemma renderStep_frame (assets : List ℚ) (s : LoopState) (i : ℕ) (cut : Cut) :
    (renderStep assets s i cut).frame
      = pyInt ((cut.start + cut.duration) * fps) := by
  simp only [renderStep]
  split <;> rfl

/-- One step adds exactly the cursor advance to the emitted frame sum,
provided the cut's end frame is not behind the cursor. -/
lemma renderStep_sumFrames (assets : List ℚ) (s : LoopState) (i : ℕ)
    (cut : Cut) (hmono : s.frame ≤ pyInt ((cut.start + cut.duration) * fps)) :
    sumFrames (renderStep assets s i cut).recs
      = sumFrames s.recs + (pyInt ((cut.start + cut.duration) * fps) - s.frame) := by
  simp only [renderStep]
  split
  · next hdrop =>
    have h0 : pyInt ((cut.start + cut.duration) * fps) - s.frame = 0 := by omega
    rw [h0]
    ring
  · next hemit =>
    simp [sumFrames, List.map_append, List.sum_append]

/-- Telescoping of the cut loop: when the successive absolute end frames
are a nondecreasing chain starting at the cursor, the emitted frame sum
grows by exactly the total cursor advance, and the final cursor is the
last end frame. -/
lemma renderLoop_frames_aux (assets : List ℚ) :
    ∀ (l : List (ℕ × Cut)) (s : LoopState),
      List.Pairwise (· ≤ ·)
        (s.frame :: l.map fun p => pyInt ((p.2.start + p.2.duration) * fps)) →
      sumFrames (l.foldl (fun s p => renderStep assets s p.1 p.2) s).recs
          = sumFrames s.recs
            + ((l.foldl (fun s p => renderStep assets s p.1 p.2) s).frame - s.frame) ∧
      (l.foldl (fun s p => renderStep assets s p.1 p.2) s).frame
          = (l.map fun p => pyInt ((p.2.start + p.2.duration) * fps)).getLastD s.frame := by
  intro l
  induction l with
  | nil =>
    intro s h
    exact ⟨by simp, rfl⟩
  | cons p l ih =>
    intro s h
    rw [List.map_cons] at h
    have hse : s.frame ≤ pyInt ((p.2.start + p.2.duration) * fps) :=
      (List.pairwise_cons.mp h).1 _ (List.mem_cons_self _ _)
    have htail := (List.pairwise_cons.mp h).2
    have hframe := renderStep_frame assets s p.1 p.2
    have hsum := renderStep_sumFrames assets s p.1 p.2 hse
    have hih := ih (renderStep assets s p.1 p.2) (by rw [hframe]; exact htail)
    obtain ⟨hs1, hs2⟩ := hih
    simp only [List.foldl_cons]
    constructor
    · rw [hs1, hsum, hframe]
      ring
    · rw [hs2, hframe, List.map_cons, List.getLastD_cons]

/-- The absolute end times of the cuts built from a nonempty mark list:
each mark's successor's time, closed by the total duration. -/
lemma cutsOf_ends (total : ℚ) :
    ∀ (bs : List BeatMark), bs ≠ [] →
      (cutsOf bs total).map (fun c => c.start + c.duration)
        = bs.tail.map BeatMark.time ++ [total] := by
  intro bs
  induction bs with
  | nil => intro h; exact absurd rfl h
  | cons b rest ih =>
    intro _
    cases rest with
    | nil =>
      simp [cutsOf]
    | cons b' rest' =>
      simp only [cutsOf, List.map_cons, List.tail_cons]
      rw [ih (List.cons_ne_nil _ _), List.tail_cons]
      simp only [List.map_cons, List.cons_append, List.cons.injEq]
      exact ⟨by ring, trivial⟩

end FrameSum

section C1Claims

/-- C1 amended: for a nonempty beat timeline whose mark times lie within
`[0, total]`, the sum of the emitted cuts' frame counts equals
`int(total * fps)` — Python truncation, i.e. the floor for nonnegative
totals — for every asset list and every outcome of the random draws.
The cursor advances even across dropped cuts, so no per-cut rounding
drift accumulates; but the total is the *truncated* product, not the
rounded one (see the counterexample). -/
theorem c1_sum_frames_floor (beats : List BeatMark) (total : ℚ)
    (assets : List ℚ) (g : Rng) (hne : beats ≠ [])
    (hb : ∀ b ∈ beats, 0 ≤ b.time ∧ b.time ≤ total) :
    sumFrames (renderLoop assets (parse_beats beats total) g).recs
      = pyInt (total * fps) := by
  have hsbne : sortBeats beats ≠ [] := by
    intro hcon
    have hlen := (List.perm_insertionSort beatLE beats).length_eq
    rw [show List.insertionSort beatLE beats = sortBeats beats from rfl,
      hcon] at hlen
    exact hne (List.length_eq_zero.mp hlen.symm)
  have hmem : ∀ b ∈ sortBeats beats, 0 ≤ b.time ∧ b.time ≤ total := fun b hbm =>
    hb b ((List.perm_insertionSort beatLE beats).mem_iff.mp hbm)
  have hsorted : List.Pairwise beatLE (sortBeats beats) :=
    List.sorted_insertionSort beatLE beats
  have hends := cutsOf_ends total (sortBeats beats) hsbne
  have h0total : (0 : ℚ) ≤ total := by
    obtain ⟨b0, hb0⟩ := List.exists_mem_of_ne_nil beats hne
    linarith [(hb b0 hb0).1, (hb b0 hb0).2]
  -- the rational end-time chain, with the initial 0 in front
  have hQ : List.Pairwise (· ≤ ·)
      ((0 : ℚ) :: ((sortBeats beats).tail.map BeatMark.time ++ [total])) := by
    rw [List.pairwise_cons]
    constructor
    · intro q hq
      rcases List.mem_append.mp hq with hq | hq
      · obtain ⟨b, hbm, rfl⟩ := List.mem_map.mp hq
        exact (hmem b (List.mem_of_mem_tail hbm)).1
      · simp at hq
        rw [hq]
        exact h0total
    · rw [List.pairwise_append]
      refine ⟨?_, by simp, ?_⟩
      · exact List.pairwise_map.mpr (pairwiseTail hsorted)
      · intro x hx y hy
        simp at hy
        rw [hy]
        obtain ⟨b, hbm, rfl⟩ := List.mem_map.mp hx
        exact (hmem b (List.mem_of_mem_tail hbm)).2
  have hnonneg : ∀ q ∈ (0 : ℚ) ::
      ((sortBeats beats).tail.map BeatMark.time ++ [total]), 0 ≤ q := by
    intro q hq
    rcases List.mem_cons.mp hq with hq | hq
    · rw [hq]
    · rcases List.mem_append.mp hq with hq | hq
      · obtain ⟨b, hbm, rfl⟩ := List.mem_map.mp hq
        exact (hmem b (List.mem_of_mem_tail hbm)).1
      · simp at hq
        rw [hq]
        exact h0total
  -- push through the monotone end-frame map
  have hZ : List.Pairwise (· ≤ ·)
      (((0 : ℚ) :: ((sortBeats beats).tail.map BeatMark.time ++ [total])).map
        fun q => pyInt (q * fps)) := by
    rw [List.pairwise_map]
    refine hQ.imp_of_mem ?_
    intro a b ha hb' hab
    rw [pyInt_of_nonneg (mul_nonneg (hnonneg a ha) fps_nonneg),
      pyInt_of_nonneg (mul_nonneg (hnonneg b hb') fps_nonneg)]
    exact Int.floor_le_floor (mul_le_mul_of_nonneg_right hab fps_nonneg)
  -- identify the end-frame list of the cut loop
  have henum : (parse_beats beats total).enum.map
        (fun p => pyInt ((p.2.start + p.2.duration) * fps))
      = (parse_beats beats total).map
        (fun c => pyInt ((c.start + c.duration) * fps)) := by
    have h1 : (parse_beats beats total).enum.map
          (fun p => pyInt ((p.2.start + p.2.duration) * fps))
        = ((parse_beats beats total).enum.map Prod.snd).map
          (fun c => pyInt ((c.start + c.duration) * fps)) := by
      rw [List.map_map]
      rfl
    rw [h1, List.enum_map_snd]
  have hcuts : (parse_beats beats total).map
        (fun c => pyInt ((c.start + c.duration) * fps))
      = ((sortBeats beats).tail.map BeatMark.time ++ [total]).map
        (fun q => pyInt (q * fps)) := by
    rw [← hends, List.map_map]
    rfl
  have hpy0 : pyInt ((0 : ℚ) * fps) = 0 := by norm_num [pyInt]
  have haux := renderLoop_frames_aux assets (parse_beats beats total).enum
    ⟨0, List.replicate assets.length [], [], g⟩ ?_
  · obtain ⟨hs1, hs2⟩ := haux
    have hfin : (renderLoop assets (parse_beats beats total) g)
        = (parse_beats beats total).enum.foldl
            (fun s p => renderStep assets s p.1 p.2)
            ⟨0, List.replicate assets.length [], [], g⟩ := rfl
    rw [hfin, hs1]
    simp only [sumFrames, List.map_nil, List.sum_nil]
    rw [hs2, henum, hcuts]
    simp only [List.map_append, List.map_cons, List.map_nil]
    rw [List.getLastD_concat]
    ring
  · show List.Pairwise (· ≤ ·) ((0 : ℤ) :: _)
    rw [henum, hcuts]
    have hmapcons : (((0 : ℚ) ::
          ((sortBeats beats).tail.map BeatMark.time ++ [total])).map
            fun q => pyInt (q * fps))
        = pyInt ((0 : ℚ) * fps) ::
          (((sortBeats beats).tail.map BeatMark.time ++ [total]).map
            fun q => pyInt (q * fps)) := List.map_cons _ _ _
    rw [hmapcons, hpy0] at hZ
    exact hZ

set_option maxHeartbeats 3200000 in
/-- C1 counterexample: one beat at time 0, total duration 0.99s.  The
code truncates (`int(0.99 * 30) = 29`) where the claim demands rounding
(`round(0.99 * 30) = 30`): the emitted frame sum is 29, not 30. -/
theorem c1_round_counterexample :
    sumFrames (renderLoop [10] (parse_beats [⟨0, 0⟩] (99 / 100)) rngHalf).recs
        = 29 ∧
    round ((99 / 100 : ℚ) * fps) = 30 := by
  constructor
  · norm_num [renderLoop, renderStep, parse_beats, sortBeats, cutsOf,
      List.insertionSort, List.orderedInsert, allocateCut, shuffle, shuffleGo,
      pickGo, findSlot, tryDraws, uniform, clamp01, alignFrame, pyInt,
      overlapsAny, choice, recordUsage, Rng.nextNat, Rng.nextReal, rngHalf,
      fps, List.enum, List.enumFrom, sumFrames]
  · norm_num [fps, round_eq]

/-- Witness for C1 (amended) at a concrete timeline: beats at 0s and 1s,
total 2s, one 10s asset — the emitted frames sum to `int(2 * 30) = 60`. -/
theorem c1_sum_frames_floor_witness :
    sumFrames (renderLoop [10] (parse_beats [⟨0, 0⟩, ⟨1, 1⟩] 2) rngHalf).recs
      = pyInt (2 * fps) :=
  c1_sum_frames_floor [⟨0, 0⟩, ⟨1, 1⟩] 2 [10] rngHalf
    (List.cons_ne_nil _ _)
    (by intro b hb; rcases List.mem_cons.mp hb with h | h
        · rw [h]; norm_num
        · simp at h; rw [h]; norm_num)

end C1Claims


section UsageInvariant

/-- The usage intervals a record list induces on asset `idx` — the
contents of `usage_map[idx]` after committing those assignments. -/
def usageOf (recs : List Assignment) (idx : ℕ) : List (ℚ × ℚ) :=
  (recs.filter fun r => r.asset == idx).map ivOf

/-- Invariant of the cut loop: the usage map mirrors the committed
assignments per asset, committed asset indices are in range, and every
non-degraded assignment is disjoint from all earlier same-asset
assignments. -/
def LoopInv (assets : List ℚ) (s : LoopState) : Prop :=
  s.usage.length = assets.length ∧
  (∀ r ∈ s.recs, r.asset < assets.length) ∧
  (∀ idx : ℕ, s.usage.getD idx [] = usageOf s.recs idx) ∧
  List.Pairwise noClash s.recs

lemma getD_replicate_nil :
    ∀ (n i : ℕ), (List.replicate n ([] : List (ℚ × ℚ))).getD i [] = [] := by
  intro n
  induction n with
  | zero => intro i; simp
  | succ m ih =>
    intro i
    cases i with
    | zero => simp [List.replicate]
    | succ k =>
      rw [List.replicate_succ, List.getD_cons_succ]
      exact ih k

lemma usageOf_append_same {recs : List Assignment} {rec : Assignment}
    {idx : ℕ} (h : rec.asset = idx) :
    usageOf (recs ++ [rec]) idx = usageOf recs idx ++ [ivOf rec] := by
  unfold usageOf
  rw [List.filter_append, List.map_append]
  congr 1
  simp [List.filter, h]

lemma usageOf_append_other {recs : List Assignment} {rec : Assignment}
    {idx : ℕ} (h : rec.asset ≠ idx) :
    usageOf (recs ++ [rec]) idx = usageOf recs idx := by
  unfold usageOf
  rw [List.filter_append]
  have hbeq : (rec.asset == idx) = false := beq_eq_false_iff_ne.mpr h
  have : List.filter (fun r => r.asset == idx) [rec] = [] := by
    simp [List.filter, hbeq]
  rw [this, List.append_nil]

lemma ivOf_mem_usageOf {recs : List Assignment} {r : Assignment}
    (hmem : r ∈ recs) {idx : ℕ} (h : r.asset = idx) :
    ivOf r ∈ usageOf recs idx := by
  unfold usageOf
  exact List.mem_map_of_mem ivOf (List.mem_filter.mpr ⟨hmem, by simp [h]⟩)

/-- One loop step preserves the invariant. -/
lemma renderStep_inv (assets : List ℚ) (s : LoopState) (i : ℕ) (cut : Cut)
    (hne : assets ≠ []) (hinv : LoopInv assets s) :
    LoopInv assets (renderStep assets s i cut) := by
  obtain ⟨hlen, hasset, hsync, hpw⟩ := hinv
  simp only [renderStep]
  split
  · exact ⟨hlen, hasset, hsync, hpw⟩
  · next hemit =>
    set d : ℚ := ((pyInt ((cut.start + cut.duration) * fps) - s.frame : ℤ) : ℚ) / fps with hd
    set a := allocateCut assets s.usage d s.g with ha
    have hidx : a.1.1 < assets.length := by
      cases hdeg : a.1.2.2 with
      | false => exact (allocateCut_clean_spec (ha ▸ hdeg)).1
      | true => exact (allocateCut_fallback_spec hne (ha ▸ hdeg)).1
    have hidxu : a.1.1 < s.usage.length := by rw [hlen]; exact hidx
    refine ⟨?_, ?_, ?_, ?_⟩
    · simpa [recordUsage] using hlen
    · intro r hr
      rcases List.mem_append.mp hr with hr | hr
      · exact hasset r hr
      · simp at hr
        rw [hr]
        exact hidx
    · intro idx
      by_cases hcase : a.1.1 = idx
      · subst hcase
        rw [show recordUsage s.usage a.1.1 (a.1.2.1, a.1.2.1 + d)
              = s.usage.set a.1.1 (s.usage.getD a.1.1 [] ++ [(a.1.2.1, a.1.2.1 + d)])
            from rfl]
        rw [getD_set_self hidxu, hsync a.1.1,
          usageOf_append_same (show Assignment.asset ⟨i, a.1.1, a.1.2.1,
            pyInt ((cut.start + cut.duration) * fps) - s.frame, a.1.2.2⟩ = a.1.1 from rfl)]
        rfl
      · rw [show recordUsage s.usage a.1.1 (a.1.2.1, a.1.2.1 + d)
              = s.usage.set a.1.1 (s.usage.getD a.1.1 [] ++ [(a.1.2.1, a.1.2.1 + d)])
            from rfl]
        rw [getD_set_ne (fun hcon => hcase hcon.symm), hsync idx,
          usageOf_append_other (fun hcon => hcase hcon)]
    · rw [List.pairwise_append]
      refine ⟨hpw, List.pairwise_singleton _ _, ?_⟩
      intro old hold rec hrec
      simp at hrec
      rw [hrec]
      intro hsame hdegf
      have hdeg : a.1.2.2 = false := hdegf
      obtain ⟨_, hov, _⟩ := allocateCut_clean_spec (ha ▸ hdeg)
      have hmemiv : ivOf old ∈ s.usage.getD a.1.1 [] := by
        rw [hsync a.1.1]
        exact ivOf_mem_usageOf hold hsame
      have hnot := overlapsAny_eq_false.mp hov (ivOf old) hmemiv
      intro hcon
      apply hnot
      refine ⟨hcon.2, ?_⟩
      have h2 := hcon.1
      show (ivOf old).1 ≤ a.1.2.1 + d
      rw [hd]
      push_cast
      simpa [ivOf] using h2

/-- The whole loop preserves the invariant. -/
lemma renderLoop_inv (assets : List ℚ) (cuts : List Cut) (g : Rng)
    (hne : assets ≠ []) :
    LoopInv assets (renderLoop assets cuts g) := by
  have hstep : ∀ (l : List (ℕ × Cut)) (s : LoopState), LoopInv assets s →
      LoopInv assets (l.foldl (fun s p => renderStep assets s p.1 p.2) s) := by
    intro l
    induction l with
    | nil => intro s hs; exact hs
    | cons p l ih =>
      intro s hs
      exact ih _ (renderStep_inv assets s p.1 p.2 hne hs)
  refine hstep _ _ ⟨by simp, by simp, fun idx => ?_, List.Pairwise.nil⟩
  rw [getD_replicate_nil]
  rfl

end UsageInvariant

section C2C10C3Claims

/-- C2: within one render job (any cuts, any asset durations, any
outcome of the random draws), any two distinct non-degraded committed
assignments on the same canonical asset have non-overlapping usage
intervals under the closed-interval test
`start_a <= end_b and end_a >= start_b`. -/
theorem c2_nonfallback_intervals_disjoint (assets : List ℚ)
    (cuts : List Cut) (g : Rng) (hne : assets ≠ []) (i j : ℕ) (hij : i ≠ j)
    (r1 r2 : Assignment)
    (h1 : (renderLoop assets cuts g).recs[i]? = some r1)
    (h2 : (renderLoop assets cuts g).recs[j]? = some r2)
    (hasset : r1.asset = r2.asset)
    (hd1 : r1.degraded = false) (hd2 : r2.degraded = false) :
    ¬(r1.start ≤ (ivOf r2).2 ∧ (ivOf r1).2 ≥ r2.start) := by
  have hpw := (renderLoop_inv assets cuts g hne).2.2.2
  set recs := (renderLoop assets cuts g).recs with hrecs
  obtain ⟨hi, hgi⟩ := List.getElem?_eq_some.mp h1
  obtain ⟨hj, hgj⟩ := List.getElem?_eq_some.mp h2
  have hget := List.pairwise_iff_get.mp hpw
  rcases Nat.lt_or_ge i j with hlt | hge
  · have := hget ⟨i, hi⟩ ⟨j, hj⟩ hlt
    rw [List.get_eq_getElem, List.get_eq_getElem] at this
    rw [hgi, hgj] at this
    exact this hasset hd2
  · have hlt : j < i := by omega
    have := hget ⟨j, hj⟩ ⟨i, hi⟩ hlt
    rw [List.get_eq_getElem, List.get_eq_getElem] at this
    rw [hgi, hgj] at this
    have hno := this hasset.symm hd1
    intro hcon
    exact hno ⟨hcon.2, hcon.1⟩

set_option maxHeartbeats 3200000 in
/-- Witness for C2 at a concrete job: one 100s asset, cuts of 1s each at
beats 0s and 1s; both commits are non-degraded on asset 0 at starts 0
and 1483/30, and their intervals are disjoint. -/
theorem c2_nonfallback_intervals_disjoint_witness :
    ¬((⟨0, 0, 0, 30, false⟩ : Assignment).start
        ≤ (ivOf ⟨1, 0, 1483 / 30, 30, false⟩).2 ∧
      (ivOf ⟨0, 0, 0, 30, false⟩).2
        ≥ (⟨1, 0, 1483 / 30, 30, false⟩ : Assignment).start) := by
  have hrecs : (renderLoop [100] (parse_beats [⟨0, 0⟩, ⟨1, 1⟩] 2)
      rngZeroThenHalf).recs
      = [⟨0, 0, 0, 30, false⟩, ⟨1, 0, 1483 / 30, 30, false⟩] := by
    norm_num [renderLoop, renderStep, parse_beats, sortBeats, cutsOf,
      List.insertionSort, List.orderedInsert, allocateCut, shuffle, shuffleGo,
      pickGo, findSlot, tryDraws, uniform, clamp01, alignFrame, pyInt,
      overlapsAny, choice, recordUsage, Rng.nextNat, Rng.nextReal,
      rngZeroThenHalf, fps, List.enum, List.enumFrom]
  exact c2_nonfallback_intervals_disjoint [100]
    (parse_beats [⟨0, 0⟩, ⟨1, 1⟩] 2) rngZeroThenHalf
    (List.cons_ne_nil _ _) 0 1 (by norm_num)
    ⟨0, 0, 0, 30, false⟩ ⟨1, 0, 1483 / 30, 30, false⟩
    (by rw [hrecs]; rfl) (by rw [hrecs]; rfl) rfl rfl rfl

/-- Start times are nonnegative on both allocation paths. -/
lemma allocateCut_start_nonneg (assets : List ℚ)
    (usage : List (List (ℚ × ℚ))) (d : ℚ) (g : Rng) :
    0 ≤ (allocateCut assets usage d g).1.2.1 := by
  rcases allocateCut_cases assets usage d g with
    ⟨idx, t, hfs, hres⟩ | ⟨hfs, ch, next, hch, hres⟩
  · obtain ⟨_, _, _, hnn, _⟩ := findSlot_some_spec _ hfs
    simp only [hres]
    exact hnn
  · simp only [hres]
    exact alignFrame_nonneg (uniform_mem (le_max_left _ _) next).1

/-- C10: every committed assignment has a nonnegative start time, and
when the fallback fires for a cut whose duration plus the 0.1s guard
exceeds the chosen asset's duration (`maxStart <= 0`), the committed
start is exactly 0 — the extraction window is still committed rather
than rejected (the record enters the loop state; see C4 for the usage
recording). -/
theorem c10_start_nonneg :
    (∀ (assets : List ℚ) (cuts : List Cut) (g : Rng) (r : Assignment),
      r ∈ (renderLoop assets cuts g).recs → 0 ≤ r.start) ∧
    (∀ (assets : List ℚ) (usage : List (List (ℚ × ℚ))) (d : ℚ) (g : Rng),
      assets ≠ [] →
      (allocateCut assets usage d g).1.2.2 = true →
      assets.getD (allocateCut assets usage d g).1.1 0 - d - 1 / 10 ≤ 0 →
      (allocateCut assets usage d g).1.2.1 = 0) := by
  constructor
  · intro assets cuts g
    have hstep : ∀ (l : List (ℕ × Cut)) (s : LoopState),
        (∀ r ∈ s.recs, 0 ≤ r.start) →
        ∀ r ∈ (l.foldl (fun s p => renderStep assets s p.1 p.2) s).recs,
          0 ≤ r.start := by
      intro l
      induction l with
      | nil => intro s hs; exact hs
      | cons p l ih =>
        intro s hs
        refine ih _ ?_
        simp only [renderStep]
        split
        · exact hs
        · intro r hr
          rcases List.mem_append.mp hr with hr | hr
          · exact hs r hr
          · simp at hr
            rw [hr]
            exact allocateCut_start_nonneg assets s.usage _ s.g
    exact hstep _ _ (by intro r hr; cases hr)
  · intro assets usage d g hne hdeg hms
    exact (allocateCut_fallback_spec hne hdeg).2.2.2.2 hms

set_option maxHeartbeats 3200000 in
/-- Witness for C10: the first conjunct applied to a concrete job (one
10s asset, a single 1s cut, commit at 133/30s), the second to the C4
fallback scenario (0.5s asset, 1s cut), whose committed start is 0. -/
theorem c10_start_nonneg_witness :
    (0 : ℚ) ≤ (⟨0, 0, 133 / 30, 30, false⟩ : Assignment).start ∧
    (allocateCut [1 / 2] [[]] 1 rngHalf).1.2.1 = 0 := by
  constructor
  · refine c10_start_nonneg.1 [10] (parse_beats [⟨0, 0⟩] 1) rngHalf
      ⟨0, 0, 133 / 30, 30, false⟩ ?_
    have hrecs : (renderLoop [10] (parse_beats [⟨0, 0⟩] 1) rngHalf).recs
        = [⟨0, 0, 133 / 30, 30, false⟩] := by
      norm_num [renderLoop, renderStep, parse_beats, sortBeats, cutsOf,
        List.insertionSort, List.orderedInsert, allocateCut, shuffle,
        shuffleGo, pickGo, findSlot, tryDraws, uniform, clamp01, alignFrame,
        pyInt, overlapsAny, choice, recordUsage, Rng.nextNat, Rng.nextReal,
        rngHalf, fps, List.enum, List.enumFrom]
    rw [hrecs]
    exact List.mem_singleton_self _
  · refine c10_start_nonneg.2 [1 / 2] [[]] 1 rngHalf
      (List.cons_ne_nil _ _) ?_ ?_
    · norm_num [allocateCut, shuffle, shuffleGo, pickGo, findSlot, tryDraws,
        uniform, clamp01, alignFrame, pyInt, overlapsAny, choice,
        Rng.nextNat, Rng.nextReal, rngHalf, fps]
    · norm_num [allocateCut, shuffle, shuffleGo, pickGo, findSlot, tryDraws,
        uniform, clamp01, alignFrame, pyInt, overlapsAny, choice,
        Rng.nextNat, Rng.nextReal, rngHalf, fps]

set_option maxHeartbeats 3200000 in
/-- C3 counterexample: two 100s assets, two 1s cuts, a concrete draw
stream — both cuts commit asset 0 through the non-fallback path, so with
more than one canonical asset a non-degraded cut reuses the previous
cut's asset: the previous asset is *not* removed from the candidates. -/
theorem c3_variety_counterexample :
    ((renderLoop [100, 100] (parse_beats [⟨0, 0⟩, ⟨1, 1⟩] 2)
        rngZeroThenHalf).recs).map (fun r => (r.asset, r.degraded))
      = [(0, false), (0, false)] ∧
    1 < ([(100 : ℚ), 100]).length := by
  constructor
  · norm_num [renderLoop, renderStep, parse_beats, sortBeats, cutsOf,
      List.insertionSort, List.orderedInsert, allocateCut, shuffle, shuffleGo,
      pickGo, findSlot, tryDraws, uniform, clamp01, alignFrame, pyInt,
      overlapsAny, choice, recordUsage, Rng.nextNat, Rng.nextReal,
      rngZeroThenHalf, fps, List.enum, List.enumFrom]
  · norm_num

/-- C3 amended: the allocator imposes no variety constraint — the
candidate list for every cut is a fresh shuffle of the *full* canonical
asset index set (nothing, in particular not the previous cut's asset, is
removed), and the committed asset is always one of those indices; the
counterexample shows a non-degraded consecutive reuse. -/
theorem c3_candidates_full_set (assets : List ℚ)
    (usage : List (List (ℚ × ℚ))) (d : ℚ) (g : Rng) (hne : assets ≠ []) :
    ((shuffle (List.range assets.length) g).1).Perm
      (List.range assets.length) ∧
    (allocateCut assets usage d g).1.1 < assets.length := by
  refine ⟨shuffle_perm _ _, ?_⟩
  cases hdeg : (allocateCut assets usage d g).1.2.2 with
  | false => exact (allocateCut_clean_spec hdeg).1
  | true => exact (allocateCut_fallback_spec hne hdeg).1

/-- Witness for C3 (amended) at a concrete input: two 1s assets. -/
theorem c3_candidates_full_set_witness :
    ((shuffle (List.range ([(1 : ℚ), 1]).length) rngHalf).1).Perm
      (List.range ([(1 : ℚ), 1]).length) ∧
    (allocateCut [1, 1] [[], []] 1 rngHalf).1.1 < ([(1 : ℚ), 1]).length :=
  c3_candidates_full_set [1, 1] [[], []] 1 rngHalf (List.cons_ne_nil _ _)

end C2C10C3Claims

end BeatSync
